import Mathlib

/-!
Shallow embedding of the two configurator scripts
(`update_capabilities.py` and `update_rules.py`) and proofs of the
testable properties that the spec states about them.

Both scripts load a JSON document, filter a top-level array by a
naming convention, append freshly generated records and write the
document back.  We embed the array-level rewrite as pure functions on
lists of records and the file-level behaviour as a function on an
abstract file state.
-/

namespace Configurator

/-- A JSON scalar as it occurs in `allowed_values`: a boolean or a number. -/
inductive Val where
  | b : Bool → Val
  | n : Nat → Val
deriving DecidableEq, Repr

/-- A capability record, as manipulated by `update_capabilities.py`:
`{model_id, model_label, option_id, raw, allowed_values}`. -/
structure Capability where
  model_id : String
  model_label : String
  option_id : String
  raw : String
  allowed_values : List Val
deriving DecidableEq, Repr

/-- The five warranty-tier option ids removed by the cleanup filter in
`update_capabilities.py` (line 8). -/
def tierIds : List String :=
  ["fap_warranty_tier", "fap_warranty_years", "fap_standard", "fap_gold", "fap_platinum"]

/-- The four option ids of the records the capability injector appends. -/
def newIds : List String :=
  ["fap_standard", "fap_gold", "fap_platinum", "fap_warranty_years"]

/-- The cleanup filter of `update_capabilities.py` line 8:
keep the capabilities whose `option_id` is not one of the five tier ids. -/
def filterCaps (caps : List Capability) : List Capability :=
  caps.filter (fun c => !(tierIds.contains c.option_id))

/-- The model-collection loop of `update_capabilities.py` lines 11-14:
an empty dict is filled by iterating over the capabilities, inserting
the pair of model id and model label whenever the model id is not yet a
key.  A Python dict
keeps insertion order, so the result is the list of
`(model_id, model_label)` pairs in first-seen order with first-seen label. -/
def collectModels (caps : List Capability) : List (String × String) :=
  caps.foldl
    (fun models c =>
      if models.any (fun m => m.1 == c.model_id) then models
      else models ++ [(c.model_id, c.model_label)])
    []

/-- The four capability records appended for one model
(`update_capabilities.py` lines 17-50). -/
def newCapsFor (mid lbl : String) : List Capability :=
  [ ⟨mid, lbl, "fap_standard", "yes, no", [.b true, .b false]⟩,
    ⟨mid, lbl, "fap_gold", "no, yes", [.b false, .b true]⟩,
    ⟨mid, lbl, "fap_platinum", "no, yes", [.b false, .b true]⟩,
    ⟨mid, lbl, "fap_warranty_years", "1, 2, 3, 4, 5", [.n 1, .n 2, .n 3, .n 4, .n 5]⟩ ]

/-- The whole array rewrite of `update_capabilities`: filter out the five
tier ids, collect the distinct models from what remains, then extend with
four new records per model. -/
def update_capabilities (caps : List Capability) : List Capability :=
  filterCaps caps ++
    (collectModels (filterCaps caps)).flatMap (fun m => newCapsFor m.1 m.2)

/-- The `when` clause of a rule: `{option_id, value}`. -/
structure Cond where
  option_id : String
  value : Bool
deriving DecidableEq, Repr

/-- The `effect` clause of a rule: `{type, option_id, value}`. -/
structure Effect where
  type : String
  option_id : String
  value : Bool
deriving DecidableEq, Repr

/-- A rule record, as manipulated by `update_rules.py`:
`{rule_id, when, effect, reason}`. -/
structure Rule where
  rule_id : String
  when : Cond
  effect : Effect
  reason : String
deriving DecidableEq, Repr

/-- The six fixed mutual-exclusion rules of `update_rules.py` lines 10-47. -/
def fapRules : List Rule :=
  [ ⟨"fap_gold_excludes_standard", ⟨"fap_gold", true⟩,
      ⟨"exclude", "fap_standard", true⟩, "Only one FAP tier allowed."⟩,
    ⟨"fap_gold_excludes_platinum", ⟨"fap_gold", true⟩,
      ⟨"exclude", "fap_platinum", true⟩, "Only one FAP tier allowed."⟩,
    ⟨"fap_platinum_excludes_standard", ⟨"fap_platinum", true⟩,
      ⟨"exclude", "fap_standard", true⟩, "Only one FAP tier allowed."⟩,
    ⟨"fap_platinum_excludes_gold", ⟨"fap_platinum", true⟩,
      ⟨"exclude", "fap_gold", true⟩, "Only one FAP tier allowed."⟩,
    ⟨"fap_standard_excludes_gold", ⟨"fap_standard", true⟩,
      ⟨"exclude", "fap_gold", true⟩, "Only one FAP tier allowed."⟩,
    ⟨"fap_standard_excludes_platinum", ⟨"fap_standard", true⟩,
      ⟨"exclude", "fap_platinum", true⟩, "Only one FAP tier allowed."⟩ ]

/-- The Python method startswith of str, embedded as a prefix test on the
character lists of the two strings (extensionally the same as `String.startsWith`). -/
def strStartsWith (s p : String) : Bool :=
  p.data.isPrefixOf s.data

/-- The cleanup filter of `update_rules.py` line 8: keep the rules whose
`rule_id` does not start with `fap_`. -/
def keptRules (rules : List Rule) : List Rule :=
  rules.filter (fun r => !(strStartsWith r.rule_id "fap_"))

/-- The whole array rewrite of `add_fap_rules`: drop every rule with a
`fap_`-prefixed id, then extend with the six fixed rules. -/
def add_fap_rules (rules : List Rule) : List Rule :=
  keptRules rules ++ fapRules

/-! ### Basic lemmas about the capability rewrite -/

theorem filterCaps_append (a b : List Capability) :
    filterCaps (a ++ b) = filterCaps a ++ filterCaps b := by
  simp [filterCaps]

theorem filterCaps_idem (caps : List Capability) :
    filterCaps (filterCaps caps) = filterCaps caps := by
  simp [filterCaps, List.filter_filter]

theorem filterCaps_newCapsFor (mid lbl : String) :
    filterCaps (newCapsFor mid lbl) = [] := by
  simp [filterCaps, newCapsFor, tierIds]

theorem filterCaps_bind_new (ms : List (String × String)) :
    filterCaps (ms.flatMap (fun m => newCapsFor m.1 m.2)) = [] := by
  induction ms with
  | nil => rfl
  | cons m ms ih =>
      rw [List.flatMap_cons, filterCaps_append, filterCaps_newCapsFor, ih]
      rfl

theorem str_beq_comm (a b : String) : (a == b) = (b == a) := by
  by_cases h : a = b
  · subst h; rfl
  · rw [beq_eq_false_iff_ne.mpr h, beq_eq_false_iff_ne.mpr (Ne.symm h)]

/-- Recursive characterisation of the model-collection loop: the first
occurrence of each `model_id` is kept, in first-occurrence order, with
the label it carries there. -/
def firstSeen : List Capability → List (String × String)
  | [] => []
  | c :: cs => (c.model_id, c.model_label) ::
      (firstSeen cs).filter (fun m => !(m.1 == c.model_id))

theorem collectModels_go (l : List Capability) :
    ∀ acc : List (String × String),
      l.foldl
        (fun models c =>
          if models.any (fun m => m.1 == c.model_id) then models
          else models ++ [(c.model_id, c.model_label)]) acc
      = acc ++ (firstSeen l).filter (fun m => !(acc.any (fun a => a.1 == m.1))) := by
  induction l with
  | nil => intro acc; simp [firstSeen]
  | cons c cs ih =>
      intro acc
      rw [List.foldl_cons]
      by_cases h : acc.any (fun m => m.1 == c.model_id) = true
      · rw [if_pos h, ih acc]
        congr 1
        rw [firstSeen, List.filter_cons_of_neg, List.filter_filter]
        · apply List.filter_congr
          intro m _
          cases hm : m.1 == c.model_id
          · simp [hm]
          · simp [eq_of_beq hm, h]
        · simp [h]
      · rw [if_neg h, ih (acc ++ [(c.model_id, c.model_label)])]
        rw [firstSeen, List.filter_cons_of_pos, List.filter_filter]
        · rw [List.append_assoc, List.singleton_append]
          congr 2
          apply List.filter_congr
          intro m _
          simp [List.any_append, Bool.not_or, str_beq_comm c.model_id m.1]
        · simp only [Bool.not_eq_true] at h
          simp [h]

theorem collectModels_eq_firstSeen (caps : List Capability) :
    collectModels caps = firstSeen caps := by
  rw [collectModels, collectModels_go]
  simp

/-! ### Basic lemmas about the rule rewrite -/

theorem keptRules_append (a b : List Rule) :
    keptRules (a ++ b) = keptRules a ++ keptRules b := by
  simp [keptRules]

theorem keptRules_idem (rs : List Rule) :
    keptRules (keptRules rs) = keptRules rs := by
  simp [keptRules, List.filter_filter]

theorem keptRules_fapRules : keptRules fapRules = [] := by
  rfl

/-- Running the capability rewrite does not change the set of capabilities
surviving the tier filter: the kept part of the output is the kept part of
the input. -/
theorem filterCaps_update (caps : List Capability) :
    filterCaps (update_capabilities caps) = filterCaps caps := by
  show filterCaps (filterCaps caps ++
      (collectModels (filterCaps caps)).flatMap (fun m => newCapsFor m.1 m.2))
    = filterCaps caps
  rw [filterCaps_append, filterCaps_bind_new, List.append_nil, filterCaps_idem]

/-- Running the rule rewrite does not change the rules surviving the
`fap_` filter. -/
theorem keptRules_update (rs : List Rule) :
    keptRules (add_fap_rules rs) = keptRules rs := by
  show keptRules (keptRules rs ++ fapRules) = keptRules rs
  rw [keptRules_append, keptRules_idem, keptRules_fapRules, List.append_nil]

/-- C1: running the capability injector twice in sequence on the same
document is idempotent: the `capabilities` array after the second run is
identical to the array after the first run. -/
theorem cap_injector_idempotent (caps : List Capability) :
    update_capabilities (update_capabilities caps) = update_capabilities caps := by
  show filterCaps (update_capabilities caps) ++
      (collectModels (filterCaps (update_capabilities caps))).flatMap
        (fun m => newCapsFor m.1 m.2)
    = update_capabilities caps
  rw [filterCaps_update]
  rfl

/-- C2: running the rule injector twice in sequence on the same document
is idempotent: the `rules` array after the second run is identical to the
array after the first run. -/
theorem rule_injector_idempotent (rs : List Rule) :
    add_fap_rules (add_fap_rules rs) = add_fap_rules rs := by
  show keptRules (add_fap_rules rs) ++ fapRules = add_fap_rules rs
  rw [keptRules_update]
  rfl

/-- C6: unrelated entries are preserved verbatim and in order: the
capabilities outside the five-id warranty namespace in the output are
exactly those of the input, in the same order, and likewise the rules
whose id does not start with `fap_`. -/
theorem frame_preserved (caps : List Capability) (rs : List Rule) :
    filterCaps (update_capabilities caps) = filterCaps caps ∧
    keptRules (add_fap_rules rs) = keptRules rs :=
  ⟨filterCaps_update caps, keptRules_update rs⟩

/-! ### Membership lemmas -/

theorem mem_update_cases {caps : List Capability} {c : Capability}
    (hc : c ∈ update_capabilities caps) :
    c ∈ filterCaps caps ∨
      ∃ m, m ∈ collectModels (filterCaps caps) ∧ c ∈ newCapsFor m.1 m.2 := by
  rcases List.mem_append.mp hc with h | h
  · exact Or.inl h
  · exact Or.inr (List.mem_flatMap.mp h)

theorem mem_filterCaps_not_tier {caps : List Capability} {c : Capability}
    (h : c ∈ filterCaps caps) : tierIds.contains c.option_id = false := by
  have h2 := (List.mem_filter.mp h).2
  simpa using h2

theorem mem_newCapsFor_cases {mid lbl : String} {c : Capability}
    (h : c ∈ newCapsFor mid lbl) :
    c = ⟨mid, lbl, "fap_standard", "yes, no", [.b true, .b false]⟩ ∨
    c = ⟨mid, lbl, "fap_gold", "no, yes", [.b false, .b true]⟩ ∨
    c = ⟨mid, lbl, "fap_platinum", "no, yes", [.b false, .b true]⟩ ∨
    c = ⟨mid, lbl, "fap_warranty_years", "1, 2, 3, 4, 5",
          [.n 1, .n 2, .n 3, .n 4, .n 5]⟩ := by
  simpa [newCapsFor] using h

/-- C9: no record with the superseded option id `fap_warranty_tier`
survives a run of the capability injector: it is removed by the filter and
never among the appended records. -/
theorem cap_no_warranty_tier (caps : List Capability) :
    ∀ c ∈ update_capabilities caps, c.option_id ≠ "fap_warranty_tier" := by
  intro c hc heq
  rcases mem_update_cases hc with h | ⟨m, _, hcm⟩
  · have h2 := mem_filterCaps_not_tier h
    rw [heq] at h2
    simp [tierIds] at h2
  · rcases mem_newCapsFor_cases hcm with h1 | h1 | h1 | h1 <;>
      (subst h1; simp at heq)

/-- C9 witness: the claim applied to a concrete document with one `color`
capability, at the preserved record. -/
theorem cap_no_warranty_tier_witness :
    (⟨"m1", "Model One", "color", "", []⟩ : Capability) ∈
        update_capabilities [⟨"m1", "Model One", "color", "", []⟩] ∧
      (⟨"m1", "Model One", "color", "", []⟩ : Capability).option_id ≠
        "fap_warranty_tier" :=
  ⟨by decide, cap_no_warranty_tier [⟨"m1", "Model One", "color", "", []⟩]
    ⟨"m1", "Model One", "color", "", []⟩ (by decide)⟩

/-- C5: every record in the output carrying one of the four injected
option ids (all such records are appended by the injector) has the fixed
`allowed_values` of that option. -/
theorem appended_allowed_values (caps : List Capability) :
    ∀ c ∈ update_capabilities caps,
      (c.option_id = "fap_standard" → c.allowed_values = [.b true, .b false]) ∧
      (c.option_id = "fap_gold" → c.allowed_values = [.b false, .b true]) ∧
      (c.option_id = "fap_platinum" → c.allowed_values = [.b false, .b true]) ∧
      (c.option_id = "fap_warranty_years" →
        c.allowed_values = [.n 1, .n 2, .n 3, .n 4, .n 5]) := by
  intro c hc
  rcases mem_update_cases hc with h | ⟨m, _, hcm⟩
  · have h2 := mem_filterCaps_not_tier h
    refine ⟨?_, ?_, ?_, ?_⟩ <;> intro heq <;> rw [heq] at h2 <;>
      simp [tierIds] at h2
  · rcases mem_newCapsFor_cases hcm with h1 | h1 | h1 | h1 <;>
      (subst h1; refine ⟨?_, ?_, ?_, ?_⟩ <;> intro heq <;> simp_all)

/-- C5 witness: the claim applied to a concrete document, at the appended
`fap_standard` record. -/
theorem appended_allowed_values_witness :
    (⟨"m1", "Model One", "fap_standard", "yes, no", [.b true, .b false]⟩ :
        Capability) ∈ update_capabilities [⟨"m1", "Model One", "color", "", []⟩] ∧
      ((⟨"m1", "Model One", "fap_standard", "yes, no", [.b true, .b false]⟩ :
          Capability).option_id = "fap_standard" →
        (⟨"m1", "Model One", "fap_standard", "yes, no", [.b true, .b false]⟩ :
          Capability).allowed_values = [.b true, .b false]) :=
  ⟨by decide,
    (appended_allowed_values [⟨"m1", "Model One", "color", "", []⟩]
      ⟨"m1", "Model One", "fap_standard", "yes, no", [.b true, .b false]⟩
      (by decide)).1⟩

/-- C10: if every input capability has a warranty-tier option id (in
particular when the array is empty), the output array is empty: nothing
survives the filter, no model is derived, nothing is appended. -/
theorem all_tier_input_empty_output (caps : List Capability)
    (h : ∀ c ∈ caps, tierIds.contains c.option_id = true) :
    update_capabilities caps = [] := by
  have hf : filterCaps caps = [] := by
    rw [filterCaps, List.filter_eq_nil_iff]
    intro c hc
    rw [h c hc]
    simp
  show filterCaps caps ++ _ = []
  rw [hf]
  rfl

/-- C10 witness: the claim applied to a concrete document holding only a
`fap_gold` capability. -/
theorem all_tier_input_empty_output_witness :
    (∀ c ∈ [(⟨"m1", "Model One", "fap_gold", "no, yes", [.b false, .b true]⟩ :
        Capability)], tierIds.contains c.option_id = true) ∧
      update_capabilities
        [⟨"m1", "Model One", "fap_gold", "no, yes", [.b false, .b true]⟩] = [] :=
  ⟨by decide,
    all_tier_input_empty_output
      [⟨"m1", "Model One", "fap_gold", "no, yes", [.b false, .b true]⟩]
      (by decide)⟩

/-! ### Counting the injected rules -/

/-- The three boolean warranty tiers that the six rules make pairwise
exclusive. -/
def tiers : List String :=
  ["fap_standard", "fap_gold", "fap_platinum"]

theorem countP_congr_own {α : Type} {p q : α → Bool} {l : List α}
    (h : ∀ x ∈ l, p x = q x) : l.countP p = l.countP q := by
  rw [List.countP_eq_length_filter, List.countP_eq_length_filter,
    List.filter_congr h]

theorem countP_keptRules_zero (rs : List Rule) (p : Rule → Bool)
    (h : ∀ r, p r = true → strStartsWith r.rule_id "fap_" = true) :
    (keptRules rs).countP p = 0 := by
  rw [List.countP_eq_zero]
  intro r hr hpr
  have h2 := (List.mem_filter.mp hr).2
  rw [h r hpr] at h2
  exact absurd h2 (by decide)

/-- C4: after one run of the rule injector, exactly six rules have a
`fap_`-prefixed id, and for each ordered pair of distinct tiers among
standard, gold and platinum there is exactly one rule whose `when`
selects the first tier with value true and whose `effect` excludes the
second with value true. -/
theorem six_exclusion_rules (rs : List Rule) (A B : String)
    (hA : A ∈ tiers) (hB : B ∈ tiers) (hAB : A ≠ B) :
    ((add_fap_rules rs).countP (fun r => strStartsWith r.rule_id "fap_")) = 6 ∧
    ((add_fap_rules rs).countP (fun r =>
        strStartsWith r.rule_id "fap_" && r.when.option_id == A &&
          r.when.value == true && r.effect.type == "exclude" &&
          r.effect.option_id == B && r.effect.value == true)) = 1 := by
  constructor
  · show ((keptRules rs ++ fapRules).countP _) = 6
    rw [List.countP_append, countP_keptRules_zero rs _ (fun r hr => hr)]
    decide
  · show ((keptRules rs ++ fapRules).countP _) = 1
    rw [List.countP_append, countP_keptRules_zero rs _ ?imp]
    case imp =>
      intro r hpr
      simp only [Bool.and_eq_true] at hpr
      exact hpr.1.1.1.1.1
    simp only [tiers, List.mem_cons, List.not_mem_nil, or_false] at hA hB
    rcases hA with rfl | rfl | rfl <;> rcases hB with rfl | rfl | rfl <;>
      first
        | exact absurd rfl hAB
        | decide

/-- C4 witness: the claim applied to the empty rule list at the ordered
pair (gold, standard). -/
theorem six_exclusion_rules_witness :
    ("fap_gold" ∈ tiers ∧ "fap_standard" ∈ tiers ∧
        "fap_gold" ≠ "fap_standard") ∧
      ((add_fap_rules []).countP (fun r => strStartsWith r.rule_id "fap_")) = 6 ∧
      ((add_fap_rules []).countP (fun r =>
          strStartsWith r.rule_id "fap_" && r.when.option_id == "fap_gold" &&
            r.when.value == true && r.effect.type == "exclude" &&
            r.effect.option_id == "fap_standard" && r.effect.value == true)) = 1 :=
  ⟨⟨by decide, by decide, by decide⟩,
    six_exclusion_rules [] "fap_gold" "fap_standard"
      (by decide) (by decide) (by decide)⟩

/-! ### File-level model: read, rewrite in memory, then write -/

/-- The failure modes of a run: unreadable file, malformed JSON, missing
expected top-level array. -/
inductive ReadErr where
  | ioError
  | parseError
  | keyError
deriving DecidableEq, Repr

/-- Abstract state of the JSON file targeted by the capability injector:
unreadable, malformed, readable JSON without a `capabilities` key, or a
document with a `capabilities` array. -/
inductive CapFile where
  | unreadable
  | malformed
  | missingKey
  | doc : List Capability → CapFile
deriving DecidableEq, Repr

/-- Reading the file, parsing the JSON and fetching the capabilities key,
as in `update_capabilities.py` lines 4-8: each failure raises. -/
def readCaps : CapFile → Except ReadErr (List Capability)
  | .unreadable => .error .ioError
  | .malformed => .error .parseError
  | .missingKey => .error .keyError
  | .doc caps => .ok caps

/-- File-level run of the capability injector: the write of lines 54-55
happens only after the read, the parse, the key lookup and the in-memory
rewrite all succeeded; on an error nothing has been written and the file
keeps its pre-run content, the error propagating as the result. -/
def runCapFile (f : CapFile) : CapFile × Except ReadErr Unit :=
  match readCaps f with
  | .error e => (f, .error e)
  | .ok caps => (.doc (update_capabilities caps), .ok ())

/-- Abstract state of the JSON file targeted by the rule injector. -/
inductive RuleFile where
  | unreadable
  | malformed
  | missingKey
  | doc : List Rule → RuleFile
deriving DecidableEq, Repr

/-- Reading the file, parsing the JSON and fetching the rules key, as in
`update_rules.py` lines 4-8: each failure raises. -/
def readRules : RuleFile → Except ReadErr (List Rule)
  | .unreadable => .error .ioError
  | .malformed => .error .parseError
  | .missingKey => .error .keyError
  | .doc rls => .ok rls

/-- File-level run of the rule injector, write-after-successful-read as in
`update_rules.py` lines 51-52. -/
def runRuleFile (g : RuleFile) : RuleFile × Except ReadErr Unit :=
  match readRules g with
  | .error e => (g, .error e)
  | .ok rls => (.doc (add_fap_rules rls), .ok ())

/-- C7: each run is atomic with respect to failure: either the read
succeeds and the file ends holding the fully rewritten document with the
run succeeding, or a read, parse or missing-array error propagates as the
result of the run and the file keeps its pre-run state. -/
theorem run_atomic (f : CapFile) (g : RuleFile) :
    ((∃ caps, f = .doc caps ∧
        runCapFile f = (.doc (update_capabilities caps), .ok ())) ∨
      (∃ e, readCaps f = .error e ∧ runCapFile f = (f, .error e))) ∧
    ((∃ rls, g = .doc rls ∧
        runRuleFile g = (.doc (add_fap_rules rls), .ok ())) ∨
      (∃ e, readRules g = .error e ∧ runRuleFile g = (g, .error e))) := by
  constructor
  · cases f with
    | doc caps => exact Or.inl ⟨caps, rfl, rfl⟩
    | unreadable => exact Or.inr ⟨.ioError, rfl, rfl⟩
    | malformed => exact Or.inr ⟨.parseError, rfl, rfl⟩
    | missingKey => exact Or.inr ⟨.keyError, rfl, rfl⟩
  · cases g with
    | doc rls => exact Or.inl ⟨rls, rfl, rfl⟩
    | unreadable => exact Or.inr ⟨.ioError, rfl, rfl⟩
    | malformed => exact Or.inr ⟨.parseError, rfl, rfl⟩
    | missingKey => exact Or.inr ⟨.keyError, rfl, rfl⟩

/-! ### Counting the injected capabilities -/

theorem newIds_subset_tier (s : String) (h : newIds.contains s = true) :
    tierIds.contains s = true := by
  simp only [newIds] at h
  simp at h
  rcases h with rfl | rfl | rfl | rfl <;> decide

theorem countP_filterCaps_zero (caps : List Capability) (p : Capability → Bool)
    (h : ∀ c, p c = true → tierIds.contains c.option_id = true) :
    (filterCaps caps).countP p = 0 := by
  rw [List.countP_eq_zero]
  intro c hc hpc
  have h1 := mem_filterCaps_not_tier hc
  rw [h c hpc] at h1
  exact absurd h1 (by decide)

theorem countP_firstSeen_key (m : String) :
    ∀ l : List Capability,
      (firstSeen l).countP (fun e => e.1 == m)
        = if l.any (fun c => c.model_id == m) then 1 else 0 := by
  intro l
  induction l with
  | nil => rfl
  | cons c cs ih =>
      rw [firstSeen, List.countP_cons, List.countP_filter, List.any_cons]
      cases hm : c.model_id == m
      · have hpw : ∀ a ∈ firstSeen cs,
            ((a.1 == m) && !(a.1 == c.model_id)) = (a.1 == m) := by
          intro a _
          cases ha : a.1 == m
          · simp [ha]
          · have hne : (a.1 == c.model_id) = false := by
              rw [eq_of_beq ha, str_beq_comm]
              exact hm
            simp [ha, hne]
        rw [countP_congr_own hpw, ih]
        simp [hm]
      · have hcm := eq_of_beq hm
        have hz : (firstSeen cs).countP
            (fun a => (a.1 == m) && !(a.1 == c.model_id)) = 0 := by
          rw [List.countP_eq_zero]
          intro a _
          simp [hcm]
        rw [hz]
        simp [hm]

theorem firstSeen_label :
    ∀ (l : List Capability) (m lbl : String), (m, lbl) ∈ firstSeen l →
      ∃ c, l.find? (fun x => x.model_id == m) = some c ∧
        c.model_label = lbl := by
  intro l
  induction l with
  | nil => intro m lbl h; simp [firstSeen] at h
  | cons a as ih =>
      intro m lbl h
      rw [firstSeen] at h
      rcases List.mem_cons.mp h with h1 | h1
      · have hm : m = a.model_id := congrArg Prod.fst h1
        have hl : lbl = a.model_label := congrArg Prod.snd h1
        refine ⟨a, ?_, hl.symm⟩
        apply List.find?_cons_of_pos
        rw [hm]
        exact beq_self_eq_true _
      · have h2 := List.mem_filter.mp h1
        have hne : (m == a.model_id) = false := by simpa using h2.2
        obtain ⟨c, hc, hcl⟩ := ih m lbl h2.1
        refine ⟨c, ?_, hcl⟩
        rw [List.find?_cons_of_neg]
        · exact hc
        · rw [str_beq_comm, hne]
          decide

theorem countP_new_all (mid lbl m : String) :
    (newCapsFor mid lbl).countP
        (fun c => c.model_id == m && newIds.contains c.option_id)
      = if mid == m then 4 else 0 := by
  cases hm : mid == m <;>
    simp [newCapsFor, List.countP_cons, hm, newIds]

theorem countP_new_one (mid lbl m oid : String)
    (hoid : newIds.contains oid = true) :
    (newCapsFor mid lbl).countP
        (fun c => c.model_id == m && c.option_id == oid)
      = if mid == m then 1 else 0 := by
  simp only [newIds] at hoid
  simp at hoid
  rcases hoid with rfl | rfl | rfl | rfl <;>
    cases hm : mid == m <;>
      simp [newCapsFor, List.countP_cons, hm]

theorem sum_map_key (m : String) (k : Nat) :
    ∀ ms : List (String × String),
      (ms.map (fun mp => if mp.1 == m then k else 0)).sum
        = k * ms.countP (fun mp => mp.1 == m) := by
  intro ms
  induction ms with
  | nil => simp
  | cons a as ih =>
      rw [List.map_cons, List.sum_cons, List.countP_cons, ih]
      cases h : a.1 == m
      · simp [h]
      · simp only [h, if_true]
        rw [Nat.mul_add, Nat.mul_one, Nat.add_comm]

/-- C3 (amended): for every distinct `model_id` present among the
capabilities remaining after the warranty-tier filter, the output contains
exactly four records carrying that `model_id` and an injected option id,
and exactly one for each of `fap_standard`, `fap_gold`, `fap_platinum`
and `fap_warranty_years`. -/
theorem four_new_caps_per_model (caps : List Capability) (m : String)
    (h : (filterCaps caps).any (fun c => c.model_id == m) = true) :
    ((update_capabilities caps).countP
        (fun c => c.model_id == m && newIds.contains c.option_id)) = 4 ∧
    ∀ oid, newIds.contains oid = true →
      ((update_capabilities caps).countP
          (fun c => c.model_id == m && c.option_id == oid)) = 1 := by
  have hkey : (collectModels (filterCaps caps)).countP
      (fun mp => mp.1 == m) = 1 := by
    rw [collectModels_eq_firstSeen, countP_firstSeen_key, h]
    rfl
  constructor
  · show (List.countP (fun c => c.model_id == m && newIds.contains c.option_id)
        (filterCaps caps ++ (collectModels (filterCaps caps)).flatMap
          (fun mp => newCapsFor mp.1 mp.2))) = 4
    rw [List.countP_append, countP_filterCaps_zero caps _ ?h1]
    case h1 =>
      intro c hpc
      simp only [Bool.and_eq_true] at hpc
      exact newIds_subset_tier _ hpc.2
    rw [List.countP_flatMap]
    have hmap : List.map ((List.countP (fun c =>
            c.model_id == m && newIds.contains c.option_id)) ∘
              (fun mp => newCapsFor mp.1 mp.2))
          (collectModels (filterCaps caps))
        = List.map (fun mp => if mp.1 == m then 4 else 0)
            (collectModels (filterCaps caps)) :=
      List.map_congr_left (fun mp _ => countP_new_all mp.1 mp.2 m)
    rw [hmap, sum_map_key, hkey]
  · intro oid hcont
    show (List.countP (fun c => c.model_id == m && c.option_id == oid)
        (filterCaps caps ++ (collectModels (filterCaps caps)).flatMap
          (fun mp => newCapsFor mp.1 mp.2))) = 1
    rw [List.countP_append, countP_filterCaps_zero caps _ ?h2]
    case h2 =>
      intro c hpc
      simp only [Bool.and_eq_true] at hpc
      rw [eq_of_beq hpc.2]
      exact newIds_subset_tier _ hcont
    rw [List.countP_flatMap]
    have hmap : List.map ((List.countP (fun c =>
            c.model_id == m && c.option_id == oid)) ∘
              (fun mp => newCapsFor mp.1 mp.2))
          (collectModels (filterCaps caps))
        = List.map (fun mp => if mp.1 == m then 1 else 0)
            (collectModels (filterCaps caps)) :=
      List.map_congr_left (fun mp _ => countP_new_one mp.1 mp.2 m oid hcont)
    rw [hmap, sum_map_key, hkey]

/-- C3 as stated is false: in a document whose only capability is a
`fap_standard` record with `model_id` `m1`, the model id `m1` is present
before injection, yet the output contains zero appended records for it,
not four: the filter removes the record before models are collected. -/
theorem four_new_caps_per_model_cex :
    (∃ c ∈ [(⟨"m1", "Model One", "fap_standard", "yes, no",
        [.b true, .b false]⟩ : Capability)], c.model_id = "m1") ∧
    ((update_capabilities [⟨"m1", "Model One", "fap_standard", "yes, no",
        [.b true, .b false]⟩]).countP
      (fun c => c.model_id == "m1" && newIds.contains c.option_id)) = 0 := by
  decide

/-- C3 witness: the amended claim applied to a document with one `color`
capability for model `m1`, checked for the total and for `fap_gold`. -/
theorem four_new_caps_per_model_witness :
    (filterCaps [(⟨"m1", "Model One", "color", "red", []⟩ : Capability)]).any
        (fun c => c.model_id == "m1") = true ∧
    ((update_capabilities [⟨"m1", "Model One", "color", "red", []⟩]).countP
        (fun c => c.model_id == "m1" && newIds.contains c.option_id)) = 4 ∧
    newIds.contains "fap_gold" = true ∧
    ((update_capabilities [⟨"m1", "Model One", "color", "red", []⟩]).countP
        (fun c => c.model_id == "m1" && c.option_id == "fap_gold")) = 1 :=
  ⟨by decide,
    (four_new_caps_per_model [⟨"m1", "Model One", "color", "red", []⟩]
      "m1" (by decide)).1,
    by decide,
    (four_new_caps_per_model [⟨"m1", "Model One", "color", "red", []⟩]
      "m1" (by decide)).2 "fap_gold" (by decide)⟩

/-- C8: the injector labels each distinct model with the `model_label` of
the first capability (in array order, among those surviving the filter)
that carries that `model_id`: every appended record (the records with an
injected option id) for that model uses this first-seen label. -/
theorem first_seen_label_used (caps : List Capability) (m : String)
    (c : Capability)
    (hfind : (filterCaps caps).find? (fun x => x.model_id == m) = some c) :
    ∀ r ∈ update_capabilities caps, newIds.contains r.option_id = true →
      r.model_id = m → r.model_label = c.model_label := by
  intro r hr hnew hrm
  rcases mem_update_cases hr with hk | ⟨mp, hmp, hrmem⟩
  · have h1 := mem_filterCaps_not_tier hk
    rw [newIds_subset_tier _ hnew] at h1
    exact absurd h1 (by decide)
  · have hmem : (mp.1, mp.2) ∈ firstSeen (filterCaps caps) := by
      rw [← collectModels_eq_firstSeen]
      simpa using hmp
    rcases mem_newCapsFor_cases hrmem with h1 | h1 | h1 | h1 <;>
      (subst h1
       have hm2 : mp.1 = m := hrm
       rw [hm2] at hmem
       obtain ⟨c2, hc2, hcl⟩ := firstSeen_label (filterCaps caps) m mp.2 hmem
       rw [hfind] at hc2
       have hcc : c = c2 := Option.some.inj hc2
       subst hcc
       exact hcl.symm)

/-- C8 witness: the claim applied to a document where two capabilities
share `model_id` `m1` with different labels `A` and `B`: the first-seen
label `A` is used on the appended `fap_standard` record. -/
theorem first_seen_label_used_witness :
    (filterCaps [(⟨"m1", "A", "color", "c1", []⟩ : Capability),
        ⟨"m1", "B", "size", "c2", []⟩]).find?
        (fun x => x.model_id == "m1") = some ⟨"m1", "A", "color", "c1", []⟩ ∧
    (⟨"m1", "A", "fap_standard", "yes, no", [.b true, .b false]⟩ :
        Capability) ∈ update_capabilities
          [⟨"m1", "A", "color", "c1", []⟩, ⟨"m1", "B", "size", "c2", []⟩] ∧
    newIds.contains (⟨"m1", "A", "fap_standard", "yes, no",
        [.b true, .b false]⟩ : Capability).option_id = true ∧
    (⟨"m1", "A", "fap_standard", "yes, no", [.b true, .b false]⟩ :
        Capability).model_id = "m1" ∧
    (⟨"m1", "A", "fap_standard", "yes, no", [.b true, .b false]⟩ :
        Capability).model_label =
      (⟨"m1", "A", "color", "c1", []⟩ : Capability).model_label :=
  ⟨by decide, by decide, by decide, by decide,
    first_seen_label_used
      [⟨"m1", "A", "color", "c1", []⟩, ⟨"m1", "B", "size", "c2", []⟩]
      "m1" ⟨"m1", "A", "color", "c1", []⟩ (by decide)
      ⟨"m1", "A", "fap_standard", "yes, no", [.b true, .b false]⟩
      (by decide) (by decide) (by decide)⟩

end Configurator
